import Mathlib

/-!
Verification of `elfo-logger/src/line_buffer.rs` (the bounded, transactional
log-line buffer of the elfo repository).

Rust `String`s are modelled as lists of UTF-8 code units (`List Nat`), so
`str::is_char_boundary` and all byte-length arithmetic translate directly.
Segment handles in the source are `&mut String`s that callers append text to,
so the writes performed during a transaction are modelled as appended byte
lists.  `usize` arithmetic is modelled by `Nat`: the source's `-=` steps never
underflow on the executed paths (proved below where used), and the one
`saturating_sub` is exactly `Nat` truncated subtraction.
-/

namespace Elfo

/-- UTF-8 code units of a Rust `String`. -/
abbrev Str := List Nat

/-- Model of `str::is_char_boundary` from Rust `core`: index `0` is always a
boundary, the length is a boundary, indices past the end are not, and an
interior index is a boundary iff the byte there is not a UTF-8 continuation
byte (`b < 0x80 || b >= 0xC0`). -/
def isCharBoundary (s : Str) (i : Nat) : Bool :=
  if i = 0 then true
  else
    match s[i]? with
    | none => i == s.length
    | some b => decide (b < 128) || decide (192 ≤ b)

/-- The `while !text.is_char_boundary(boundary) { boundary -= 1 }` loop of
`safe_truncate`, started at `to`.  Index `0` is always a char boundary, so the
Rust loop never underflows and the recursion below is total. -/
def findBoundary (s : Str) : Nat → Nat
  | 0 => 0
  | n + 1 => if isCharBoundary s (n + 1) then n + 1 else findBoundary s n

/-- The free function `safe_truncate(text: &mut String, to: usize) -> usize`
(line_buffer.rs, lines 209-217): find the largest char boundary at or below
`to`, truncate the text there, and return `to - boundary`. -/
def safe_truncate (text : Str) (tgt : Nat) : Str × Nat :=
  let boundary := findBoundary text tgt
  (text.take boundary, tgt - boundary)

/-- The constant `TRUNCATED_MARKER: &str = " TRUNCATED"` (ten UTF-8 bytes). -/
def TRUNCATED_MARKER : Str := [32, 84, 82, 85, 78, 67, 65, 84, 69, 68]

/-- The struct `LineBuffer` (line_buffer.rs): the accumulated/meta buffer, the
payload and fields segment buffers, and the configured maximum line size. -/
structure LineBuffer where
  buffer : Str
  payload : Str
  fields : Str
  max_line_size : Nat
deriving DecidableEq, Repr

/-- `LineBuffer::configure`. -/
def LineBuffer.configure (b : LineBuffer) (max_line_size : Nat) : LineBuffer :=
  { b with max_line_size }

/-- `LineBuffer::clear`: discards all three buffers. -/
def LineBuffer.clear (b : LineBuffer) : LineBuffer :=
  { b with buffer := [], payload := [], fields := [] }

/-- `LineBuffer::as_str`. -/
def LineBuffer.as_str (b : LineBuffer) : Str :=
  b.buffer

set_option linter.unusedVariables false in
/-- `LineBuffer::with_capacity`: the capacity argument only pre-allocates
backing storage, which has no observable effect on contents. -/
def LineBuffer.with_capacity (capacity max_line_size : Nat) : LineBuffer :=
  { buffer := [], payload := [], fields := [], max_line_size }

/-- `TruncatingWrite::meta_len`, as a function of the underlying buffer and
the transaction's `pre_start_buffer_size` (called `pre` throughout). -/
def TruncatingWrite.meta_len (b : LineBuffer) (pre : Nat) : Nat :=
  b.buffer.length - pre

/-- `TruncatingWrite::len`. -/
def TruncatingWrite.len (b : LineBuffer) (pre : Nat) : Nat :=
  TruncatingWrite.meta_len b pre + b.payload.length + b.fields.length

/-- `TruncatingWrite::probe_size_limit` (line_buffer.rs, lines 65-96), as a
function of the buffer state and `pre_start_buffer_size`.  Returns the mutated
buffer together with the `bool` the Rust method returns (bound to
`add_truncated_marker` in `try_commit`).  The Rust `need_to_erase -= part`
steps subtract `part = min(len, need_to_erase) ≤ need_to_erase` and hence
never underflow, and `saturating_sub` is `Nat` subtraction. -/
def probe_size_limit (b : LineBuffer) (pre : Nat) : LineBuffer × Bool :=
  let len := TruncatingWrite.len b pre
  if b.max_line_size < len then
    let need0 := len - b.max_line_size + TRUNCATED_MARKER.length
    let payload_len := b.payload.length
    let fields_len := b.fields.length
    let meta_len := TruncatingWrite.meta_len b pre
    let payload_part := min payload_len need0
    let need1 := need0 - payload_part
    let pr := safe_truncate b.payload (payload_len - payload_part)
    let need2 := need1 - pr.2
    let fields_part := min fields_len need2
    let need3 := need2 - fields_part
    let fr := safe_truncate b.fields (fields_len - fields_part)
    let need4 := need3 - fr.2
    let meta_part := min meta_len need4
    let truncate_meta_to := b.buffer.length - meta_part
    let br := safe_truncate b.buffer truncate_meta_to
    let bAfter : LineBuffer :=
      { buffer := br.1, payload := pr.1, fields := fr.1,
        max_line_size := b.max_line_size }
    (bAfter,
     decide (TruncatingWrite.len bAfter pre + TRUNCATED_MARKER.length
       ≤ b.max_line_size))
  else
    (b, decide (len + TRUNCATED_MARKER.length ≤ b.max_line_size))

/-- `<TruncatingWrite as Line>::try_commit` (line_buffer.rs, lines 24-39):
probe the size limit, then append payload, fields, the marker when flagged,
and a newline (byte `10`).  The Rust method then forgets `self` (so no
rollback runs) and returns `true`. -/
def TruncatingWrite.try_commit (b : LineBuffer) (pre : Nat) : LineBuffer :=
  let r := probe_size_limit b pre
  { r.1 with
    buffer := r.1.buffer ++ r.1.payload ++ r.1.fields
      ++ (if r.2 then TRUNCATED_MARKER else []) ++ [10] }

/-- `impl Drop for TruncatingWrite`: truncate the accumulated buffer back to
the start mark. -/
def TruncatingWrite.drop (b : LineBuffer) (pre : Nat) : LineBuffer :=
  { b with buffer := b.buffer.take pre }

/-- `DirectWrite::len`. -/
def DirectWrite.len (b : LineBuffer) (pre : Nat) : Nat :=
  b.buffer.length - pre

/-- `impl Drop for DirectWrite`. -/
def DirectWrite.drop (b : LineBuffer) (pre : Nat) : LineBuffer :=
  { b with buffer := b.buffer.take pre }

/-- `<DirectWrite as Line>::try_commit` (line_buffer.rs, lines 116-127): fail
when the length written since the start mark exceeds the limit — in Rust the
consumed `self` is then dropped before the call returns, running the rollback
— otherwise append a newline and forget `self`. -/
def DirectWrite.try_commit (b : LineBuffer) (pre : Nat) : Bool × LineBuffer :=
  if b.max_line_size < DirectWrite.len b pre then
    (false, DirectWrite.drop b pre)
  else
    (true, { b with buffer := b.buffer ++ [10] })

/-- The writes performed through a truncating transaction's three handles:
`meta_mut` appends to `buffer`, `payload_mut` to `payload`, `fields_mut` to
`fields`. -/
def TruncatingWrite.write (b : LineBuffer) (m p f : Str) : LineBuffer :=
  { b with
    buffer := b.buffer ++ m
    payload := b.payload ++ p
    fields := b.fields ++ f }

/-- Open a truncating transaction, write the three segments, and commit —
the `put_msg` helper of the module's own tests. -/
def put_msg (b : LineBuffer) (m p f : Str) : LineBuffer :=
  TruncatingWrite.try_commit (TruncatingWrite.write b m p f) b.buffer.length

/-- Open a direct transaction, write `w` (all three handles of a direct
transaction alias `buffer`, so a write sequence is one appended list), and
try to commit. -/
def put_direct (b : LineBuffer) (w : Str) : Bool × LineBuffer :=
  DirectWrite.try_commit { b with buffer := b.buffer ++ w } b.buffer.length

/-- Open a truncating transaction, write, and drop it without committing. -/
def drop_truncating (b : LineBuffer) (m p f : Str) : LineBuffer :=
  TruncatingWrite.drop (TruncatingWrite.write b m p f) b.buffer.length

/-- Open a direct transaction, write, and drop it without committing. -/
def drop_direct (b : LineBuffer) (w : Str) : LineBuffer :=
  DirectWrite.drop { b with buffer := b.buffer ++ w } b.buffer.length

/-- A byte list whose first byte (if any) is not a UTF-8 continuation byte.
Text appended from a Rust `&str` always satisfies this, because valid UTF-8
never starts with a continuation byte. -/
def head_not_cont (m : Str) : Prop :=
  ∀ c ∈ m.take 1, c < 128 ∨ 192 ≤ c

instance (m : Str) : Decidable (head_not_cont m) := by
  unfold head_not_cont; infer_instance

/-- Spec §4.3 step 3, one segment: remove `min(deficit_remaining,
segment_length)` bytes from the end via SafeTruncate and decrement the
deficit by the number of bytes actually removed.  This is the second,
spec-side definition used to state the refinement claim C4. -/
def spec_erase_step (s : Str) (deficit : Nat) : Str × Nat :=
  let part := min deficit s.length
  let r := safe_truncate s (s.length - part)
  (r.1, deficit - (s.length - r.1.length))

/-- Spec §4.3 step 3, the removal chain in priority order: payload first,
then fields, then the metadata segment. -/
def spec_trim (payload fields meta : Str) (deficit : Nat) :
    Str × Str × Str × Nat :=
  let p := spec_erase_step payload deficit
  let f := spec_erase_step fields p.2
  let m := spec_erase_step meta f.2
  (p.1, f.1, m.1, m.2)

/-! ## Lemmas about `isCharBoundary` and `findBoundary` -/

theorem isCharBoundary_zero (s : Str) : isCharBoundary s 0 = true := by
  simp [isCharBoundary]

theorem isCharBoundary_length (s : Str) : isCharBoundary s s.length = true := by
  unfold isCharBoundary
  by_cases h : s.length = 0
  · simp [h]
  · rw [if_neg h]
    have hnone : s[s.length]? = none := by
      exact List.getElem?_eq_none (Nat.le_refl _)
    simp [hnone]

theorem isCharBoundary_le_length {s : Str} {i : Nat}
    (h : isCharBoundary s i = true) : i ≤ s.length := by
  unfold isCharBoundary at h
  by_cases h0 : i = 0
  · omega
  · rw [if_neg h0] at h
    rcases hg : s[i]? with _ | b
    · rw [hg] at h
      simp only [beq_iff_eq] at h
      omega
    · have hlt : i < s.length := by
        have := List.getElem?_eq_some.mp hg
        exact this.1
      omega

theorem findBoundary_le (s : Str) (tgt : Nat) : findBoundary s tgt ≤ tgt := by
  induction tgt with
  | zero => simp [findBoundary]
  | succ n ih =>
    simp only [findBoundary]
    split
    · exact Nat.le_refl _
    · exact Nat.le_trans ih (Nat.le_succ n)

theorem findBoundary_le_length (s : Str) (tgt : Nat) :
    findBoundary s tgt ≤ s.length := by
  induction tgt with
  | zero => simp [findBoundary]
  | succ n ih =>
    simp only [findBoundary]
    split
    · exact isCharBoundary_le_length (by assumption)
    · exact ih

theorem isCharBoundary_findBoundary (s : Str) (tgt : Nat) :
    isCharBoundary s (findBoundary s tgt) = true := by
  induction tgt with
  | zero => simpa [findBoundary] using isCharBoundary_zero s
  | succ n ih =>
    simp only [findBoundary]
    split
    · assumption
    · exact ih

theorem le_findBoundary_of_boundary {s : Str} {p tgt : Nat} (hp : p ≤ tgt)
    (hb : isCharBoundary s p = true) : p ≤ findBoundary s tgt := by
  induction tgt with
  | zero => omega
  | succ n ih =>
    simp only [findBoundary]
    split
    · exact hp
    · rename_i hnb
      have hpn : p ≠ n + 1 := by
        intro e
        rw [e] at hb
        exact hnb hb
      exact ih (by omega)

theorem findBoundary_of_boundary {s : Str} {tgt : Nat}
    (hb : isCharBoundary s tgt = true) : findBoundary s tgt = tgt :=
  Nat.le_antisymm (findBoundary_le s tgt) (le_findBoundary_of_boundary (Nat.le_refl _) hb)

theorem findBoundary_maximal {s : Str} {tgt q : Nat}
    (h1 : findBoundary s tgt < q) (h2 : q ≤ tgt) : isCharBoundary s q = false := by
  cases hq : isCharBoundary s q with
  | false => rfl
  | true => exact absurd (le_findBoundary_of_boundary h2 hq) (by omega)

theorem safe_truncate_fst (s : Str) (tgt : Nat) :
    (safe_truncate s tgt).1 = s.take (findBoundary s tgt) := rfl

theorem safe_truncate_snd (s : Str) (tgt : Nat) :
    (safe_truncate s tgt).2 = tgt - findBoundary s tgt := rfl

theorem safe_truncate_length (s : Str) (tgt : Nat) :
    (safe_truncate s tgt).1.length = findBoundary s tgt := by
  simp [safe_truncate, List.length_take,
    Nat.min_eq_left (findBoundary_le_length s tgt)]


/-! ## Boundary lemmas for appended lists -/

theorem isCharBoundary_append {a m : Str} {i : Nat} (hi : 0 < i) :
    isCharBoundary (a ++ m) (a.length + i) = isCharBoundary m i := by
  unfold isCharBoundary
  rw [if_neg (by omega), if_neg (by omega)]
  rw [List.getElem?_append_right (by omega)]
  have harg : a.length + i - a.length = i := by omega
  rw [harg]
  cases hg : m[i]? with
  | none =>
    simp only [List.length_append, beq_iff_eq]
    have : (a.length + i = a.length + m.length) ↔ (i = m.length) := by omega
    simp [this]
  | some b => rfl

theorem boundary_append_of_head_not_cont {a m : Str} (h : head_not_cont m) :
    isCharBoundary (a ++ m) a.length = true := by
  cases m with
  | nil =>
    rw [List.append_nil]
    exact isCharBoundary_length a
  | cons c cs =>
    unfold isCharBoundary
    by_cases h0 : a.length = 0
    · rw [if_pos h0]
    · rw [if_neg h0, List.getElem?_append_right (Nat.le_refl _)]
      simp only [Nat.sub_self, List.getElem?_cons_zero]
      have hc : c < 128 ∨ 192 ≤ c := h c (by simp)
      rcases hc with hc | hc <;> simp [hc]

theorem findBoundary_append {a m : Str}
    (hb : isCharBoundary (a ++ m) a.length = true) :
    ∀ t, t ≤ m.length →
      findBoundary (a ++ m) (a.length + t) = a.length + findBoundary m t := by
  intro t
  induction t with
  | zero =>
    intro _
    simpa using findBoundary_of_boundary hb
  | succ n ih =>
    intro hn
    have h1 : a.length + (n + 1) = (a.length + n) + 1 := by omega
    rw [h1]
    simp only [findBoundary]
    rw [show (a.length + n) + 1 = a.length + (n + 1) by omega,
      isCharBoundary_append (by omega)]
    by_cases hg : isCharBoundary m (n + 1) = true
    · simp [hg]
    · simp only [Bool.not_eq_true] at hg
      simp [hg]
      exact ih (by omega)

/-! ## Relating one code truncation stage to one spec erase step -/

theorem spec_erase_step_fst (s : Str) (d : Nat) :
    (spec_erase_step s d).1 = s.take (findBoundary s (s.length - min d s.length)) := rfl

theorem spec_erase_step_length (s : Str) (d : Nat) :
    (spec_erase_step s d).1.length = findBoundary s (s.length - min d s.length) := by
  simp [spec_erase_step, safe_truncate_length]

theorem spec_erase_step_snd (s : Str) (d : Nat) :
    (spec_erase_step s d).2 = d - (s.length - (spec_erase_step s d).1.length) := rfl

theorem spec_erase_step_length_le (s : Str) (d : Nat) :
    (spec_erase_step s d).1.length ≤ s.length - min d s.length := by
  rw [spec_erase_step_length]
  exact findBoundary_le s _

theorem spec_erase_step_empty_of_pos {s : Str} {d : Nat}
    (h : 0 < (spec_erase_step s d).2) : (spec_erase_step s d).1 = [] := by
  have hlen := spec_erase_step_length_le s d
  have hsnd := spec_erase_step_snd s d
  have hle : (spec_erase_step s d).1.length ≤ s.length := by
    rw [spec_erase_step_length]
    exact findBoundary_le_length s _
  have hzero : (spec_erase_step s d).1.length = 0 := by omega
  exact List.eq_nil_of_length_eq_zero hzero

theorem spec_erase_step_zero (s : Str) : spec_erase_step s 0 = (s, 0) := by
  have hb := findBoundary_of_boundary (isCharBoundary_length s)
  simp [spec_erase_step, safe_truncate, hb]

/-- One truncation stage of `probe_size_limit` (request `part`, then
subtract the boundary shortfall) agrees with `spec_erase_step`. -/
theorem code_stage_eq_spec_stage (s : Str) (d : Nat) :
    (safe_truncate s (s.length - min s.length d)).1 = (spec_erase_step s d).1 ∧
    (d - min s.length d) - (safe_truncate s (s.length - min s.length d)).2
      = (spec_erase_step s d).2 := by
  have hmin : min s.length d = min d s.length := Nat.min_comm _ _
  have hB1 := findBoundary_le s (s.length - min d s.length)
  have hB2 := findBoundary_le_length s (s.length - min d s.length)
  constructor
  · rw [safe_truncate_fst, spec_erase_step_fst, hmin]
  · rw [safe_truncate_snd, spec_erase_step_snd, spec_erase_step_length, hmin]
    omega

/-! ## Characterizing `probe_size_limit` -/

theorem probe_under (b : LineBuffer) (pre : Nat)
    (hlen : TruncatingWrite.len b pre ≤ b.max_line_size) :
    probe_size_limit b pre =
      (b, decide (TruncatingWrite.len b pre + TRUNCATED_MARKER.length
        ≤ b.max_line_size)) := by
  unfold probe_size_limit
  rw [if_neg (by omega)]

theorem take_append_add (A M : Str) (n : Nat) :
    (A ++ M).take (A.length + n) = A ++ M.take n := by
  rw [List.take_append_eq_append_take]
  congr 1
  · exact List.take_of_length_le (by omega)
  · congr 1
    omega

theorem meta_len_mk (A M p0 f0 : Str) (mx : Nat) :
    TruncatingWrite.meta_len ⟨A ++ M, p0, f0, mx⟩ A.length = M.length := by
  simp only [TruncatingWrite.meta_len, List.length_append]
  omega

theorem len_mk (A M p0 f0 : Str) (mx : Nat) :
    TruncatingWrite.len ⟨A ++ M, p0, f0, mx⟩ A.length
      = M.length + p0.length + f0.length := by
  simp only [TruncatingWrite.len, meta_len_mk]

/-- Over-limit branch of `probe_size_limit`: the three code truncation stages
coincide with the spec-side removal chain `spec_trim` applied to the payload,
fields and metadata segments with the spec's deficit. -/
theorem probe_over (A M p0 f0 : Str) (mx : Nat)
    (hb : isCharBoundary (A ++ M) A.length = true)
    (hlen : mx < M.length + p0.length + f0.length) :
    probe_size_limit ⟨A ++ M, p0, f0, mx⟩ A.length =
      (let t := spec_trim p0 f0 M
        (M.length + p0.length + f0.length - mx + TRUNCATED_MARKER.length)
       ({ buffer := A ++ t.2.2.1, payload := t.1, fields := t.2.1,
          max_line_size := mx },
        decide (t.2.2.1.length + t.1.length + t.2.1.length
          + TRUNCATED_MARKER.length ≤ mx))) := by
  have hlen' := len_mk A M p0 f0 mx
  have hmeta := meta_len_mk A M p0 f0 mx
  unfold probe_size_limit
  rw [hlen', if_pos hlen, hmeta]
  have hp := code_stage_eq_spec_stage p0
    (M.length + p0.length + f0.length - mx + TRUNCATED_MARKER.length)
  set d0 := M.length + p0.length + f0.length - mx + TRUNCATED_MARKER.length with hd0
  set d1 := (spec_erase_step p0 d0).2 with hd1
  have hf := code_stage_eq_spec_stage f0 d1
  set d2 := (spec_erase_step f0 d1).2 with hd2
  -- the meta stage of the code, rewritten through the spec chain
  have hm := code_stage_eq_spec_stage M d2
  dsimp only
  rw [hp.1, hp.2, hf.1, hf.2]
  have hAMlen : (A ++ M).length - M.length ⊓ d2
      = A.length + (M.length - M.length ⊓ d2) := by
    rw [List.length_append]
    omega
  have hfb : findBoundary (A ++ M) (A.length + (M.length - M.length ⊓ d2))
      = A.length + findBoundary M (M.length - M.length ⊓ d2) :=
    findBoundary_append hb _ (by omega)
  have hbr : (safe_truncate (A ++ M) ((A ++ M).length - M.length ⊓ d2)).1
      = A ++ (safe_truncate M (M.length - M.length ⊓ d2)).1 := by
    rw [safe_truncate_fst, safe_truncate_fst, hAMlen, hfb, take_append_add]
  rw [hbr, hm.1]
  dsimp only [spec_trim]
  rw [← hd1, ← hd2]
  rw [len_mk]

/-! ## The budget bound for the spec-side removal chain -/

/-- After the over-limit removal chain, the remaining content fits within
`mx`: the code always converges to at most the budget (in fact to at most
`mx - 10` unless everything was erased). -/
theorem spec_trim_budget (p0 f0 M : Str) (mx : Nat)
    (hlen : mx < M.length + p0.length + f0.length) :
    ((spec_trim p0 f0 M
        (M.length + p0.length + f0.length - mx + TRUNCATED_MARKER.length)).2.2.1.length
      + (spec_trim p0 f0 M
        (M.length + p0.length + f0.length - mx + TRUNCATED_MARKER.length)).1.length
      + (spec_trim p0 f0 M
        (M.length + p0.length + f0.length - mx + TRUNCATED_MARKER.length)).2.1.length)
      ≤ mx := by
  set d0 := M.length + p0.length + f0.length - mx + TRUNCATED_MARKER.length with hd0
  have hm10 : TRUNCATED_MARKER.length = 10 := rfl
  dsimp only [spec_trim]
  set d1 := (spec_erase_step p0 d0).2 with hd1
  set d2 := (spec_erase_step f0 d1).2 with hd2
  set d3 := (spec_erase_step M d2).2 with hd3
  have hp1 := spec_erase_step_length_le p0 d0
  have hf1 := spec_erase_step_length_le f0 d1
  have hm1 := spec_erase_step_length_le M d2
  have hp2 := spec_erase_step_snd p0 d0
  have hf2 := spec_erase_step_snd f0 d1
  have hm2 := spec_erase_step_snd M d2
  rw [← hd1] at hp2
  rw [← hd2] at hf2
  rw [← hd3] at hm2
  rcases Nat.eq_zero_or_pos d3 with h3 | h3
  · -- the deficit was fully satisfied: at least d0 bytes were removed
    omega
  · -- content exhausted before the deficit: everything is empty
    have hmz : (spec_erase_step M d2).1 = [] := spec_erase_step_empty_of_pos (by omega)
    have h2 : 0 < d2 := by omega
    have hfz : (spec_erase_step f0 d1).1 = [] := spec_erase_step_empty_of_pos (by omega)
    have h1 : 0 < d1 := by omega
    have hpz : (spec_erase_step p0 d0).1 = [] := spec_erase_step_empty_of_pos (by omega)
    rw [hmz, hfz, hpz]
    simp

/-! ## Characterizing a whole truncating transaction -/

theorem len_write (b : LineBuffer) (m p f : Str) :
    TruncatingWrite.len (TruncatingWrite.write b m p f) b.buffer.length
      = m.length + (b.payload ++ p).length + (b.fields ++ f).length := by
  simp only [TruncatingWrite.write, TruncatingWrite.len, TruncatingWrite.meta_len,
    List.length_append]
  omega

theorem put_msg_under (b : LineBuffer) (m p f : Str)
    (h : m.length + (b.payload ++ p).length + (b.fields ++ f).length
      ≤ b.max_line_size) :
    put_msg b m p f =
      { buffer := b.buffer ++ (m ++ (b.payload ++ p) ++ (b.fields ++ f)
          ++ (if m.length + (b.payload ++ p).length + (b.fields ++ f).length
                + TRUNCATED_MARKER.length ≤ b.max_line_size
              then TRUNCATED_MARKER else []) ++ [10])
        payload := b.payload ++ p
        fields := b.fields ++ f
        max_line_size := b.max_line_size } := by
  have hlenw := len_write b m p f
  unfold put_msg TruncatingWrite.try_commit
  rw [probe_under _ _ (by rw [hlenw]; exact h)]
  rw [hlenw]
  simp [TruncatingWrite.write, List.append_assoc]

theorem put_msg_over (b : LineBuffer) (m p f : Str)
    (hm : head_not_cont m)
    (h : b.max_line_size
      < m.length + (b.payload ++ p).length + (b.fields ++ f).length) :
    put_msg b m p f =
      (let t := spec_trim (b.payload ++ p) (b.fields ++ f) m
          (m.length + (b.payload ++ p).length + (b.fields ++ f).length
            - b.max_line_size + TRUNCATED_MARKER.length)
       { buffer := b.buffer ++ (t.2.2.1 ++ t.1 ++ t.2.1
           ++ (if t.2.2.1.length + t.1.length + t.2.1.length
                 + TRUNCATED_MARKER.length ≤ b.max_line_size
               then TRUNCATED_MARKER else []) ++ [10])
         payload := t.1
         fields := t.2.1
         max_line_size := b.max_line_size }) := by
  have hb : isCharBoundary (b.buffer ++ m) b.buffer.length = true :=
    boundary_append_of_head_not_cont hm
  have hwr : TruncatingWrite.write b m p f =
      ⟨b.buffer ++ m, b.payload ++ p, b.fields ++ f, b.max_line_size⟩ := rfl
  have hprobe := probe_over b.buffer m (b.payload ++ p) (b.fields ++ f)
    b.max_line_size hb (by omega)
  unfold put_msg TruncatingWrite.try_commit
  rw [hwr, hprobe]
  dsimp only
  simp [List.append_assoc]

/-! ## Claim theorems -/

/-- C1 (code bug evidence): the spec says that when the assembled content
fits the budget and the marker also fits (`len + 10 ≤ max_line_size`), the
committed line is clean — no marker.  The code's `probe_size_limit` returns
`len + TRUNCATED_MARKER.len() <= max_line_size` as the `add_truncated_marker`
flag in exactly that branch, so a 2-byte line under a 100-byte budget commits
with " TRUNCATED" appended even though nothing was removed: the evaluation
below shows the committed bytes are `"hi TRUNCATED\n"`, not the clean
`"hi\n"` the claim requires. -/
theorem C1_marker_on_clean_line_eval :
    (put_msg (LineBuffer.with_capacity 100 100) [104, 105] [] []).buffer
      = [104, 105] ++ TRUNCATED_MARKER ++ [10] ∧
    [104, 105] ++ TRUNCATED_MARKER ++ [10] ≠ ([104, 105] ++ [10] : Str) := by
  constructor
  · decide
  · decide

/-- C3: dropping a transaction of either kind without committing restores
`as_str` to its exact value from before the transaction was opened,
whatever was written into the meta, payload or fields handles. -/
theorem C3_rollback_on_drop (b : LineBuffer) (m p f w : Str) :
    (drop_truncating b m p f).as_str = b.as_str ∧
    (drop_direct b w).as_str = b.as_str := by
  constructor
  · simp [drop_truncating, TruncatingWrite.drop, TruncatingWrite.write,
      LineBuffer.as_str, List.take_left]
  · simp [drop_direct, DirectWrite.drop, LineBuffer.as_str, List.take_left]

/-- C5: a direct transaction's commit fails exactly when the bytes written
since the start mark exceed `max_line_size`; on failure the buffer is left
exactly as before the transaction, and on success the full written content
plus a trailing newline is appended — never a partial write. -/
theorem C5_direct_all_or_nothing (b : LineBuffer) (w : Str) :
    ((put_direct b w).1 = false ↔ b.max_line_size < w.length) ∧
    ((put_direct b w).1 = false → (put_direct b w).2.buffer = b.buffer) ∧
    ((put_direct b w).1 = true → (put_direct b w).2.buffer = b.buffer ++ w ++ [10]) := by
  have hlen : DirectWrite.len { b with buffer := b.buffer ++ w } b.buffer.length
      = w.length := by
    simp [DirectWrite.len, List.length_append]
  unfold put_direct DirectWrite.try_commit
  rw [hlen]
  by_cases h : b.max_line_size < w.length
  · rw [if_pos h]
    refine ⟨by simpa using h, fun _ => ?_, by simp⟩
    simp [DirectWrite.drop, List.take_left]
  · rw [if_neg h]
    exact ⟨by simpa using h, by simp, fun _ => by simp [List.append_assoc]⟩

/-- C5 witness at a concrete input: a 5-byte write against a 5-byte budget
succeeds and appends the content plus newline. -/
theorem C5_direct_all_or_nothing_witness :
    (put_direct (LineBuffer.with_capacity 0 5) [97, 98, 99, 100, 101]).1 = true →
      (put_direct (LineBuffer.with_capacity 0 5) [97, 98, 99, 100, 101]).2.buffer
        = [] ++ [97, 98, 99, 100, 101] ++ [10] :=
  (C5_direct_all_or_nothing (LineBuffer.with_capacity 0 5) [97, 98, 99, 100, 101]).2.2

/-- C6: `safe_truncate` is total (the boundary search stops at index `0`,
which is always a char boundary, so the Rust loop neither panics nor
underflows), the result's length is at most the requested target and at most
the original length, and the new length always lands on a valid character
boundary of the original text. -/
theorem C6_safe_truncate_boundary_safety (s : Str) (tgt : Nat) :
    (safe_truncate s tgt).1.length ≤ tgt ∧
    (safe_truncate s tgt).1.length ≤ s.length ∧
    isCharBoundary s ((safe_truncate s tgt).1.length) = true ∧
    (safe_truncate s tgt).1 = s.take ((safe_truncate s tgt).1.length) := by
  rw [safe_truncate_length]
  exact ⟨findBoundary_le s tgt, findBoundary_le_length s tgt,
    isCharBoundary_findBoundary s tgt, by rw [safe_truncate_fst]⟩

/-- C7 counterexample: the claim says the return value is the number of
bytes actually removed, i.e. the old length minus the new length.  On the
ASCII text "abc" with target 1, two bytes are removed but the function
returns `1 - 1 = 0`: the return value is the shortfall below the requested
target, not the amount removed. -/
theorem C7_return_value_counterexample :
    safe_truncate [97, 98, 99] 1 = ([97], 0) ∧
    (safe_truncate [97, 98, 99] 1).2
      ≠ ([97, 98, 99] : Str).length - (safe_truncate [97, 98, 99] 1).1.length := by
  constructor
  · decide
  · decide

/-- C7 (amended): `safe_truncate` shrinks the buffer in place to the largest
length at most `tgt` (and at most the original length) that lands on a valid
character boundary, and returns `tgt` minus the new length — the number of
extra bytes removed beyond the requested target due to boundary rounding —
rather than the total number of bytes removed. -/
theorem C7_safe_truncate_contract (s : Str) (tgt : Nat) :
    (safe_truncate s tgt).1 = s.take ((safe_truncate s tgt).1.length) ∧
    (safe_truncate s tgt).1.length ≤ min tgt s.length ∧
    isCharBoundary s ((safe_truncate s tgt).1.length) = true ∧
    (∀ q, (safe_truncate s tgt).1.length < q → q ≤ tgt →
      isCharBoundary s q = false) ∧
    (safe_truncate s tgt).2 = tgt - (safe_truncate s tgt).1.length := by
  rw [safe_truncate_length]
  refine ⟨by rw [safe_truncate_fst], ?_, isCharBoundary_findBoundary s tgt,
    ?_, by rw [safe_truncate_snd]⟩
  · exact Nat.le_min.mpr ⟨findBoundary_le s tgt, findBoundary_le_length s tgt⟩
  · intro q h1 h2
    exact findBoundary_maximal h1 h2

/-- C7 witness: the amended contract instantiated on the two-byte character
`"Р"` (bytes `[208, 160]`) with target 1, where the boundary rounds down to 0
and the return value is `1 - 0 = 1`. -/
theorem C7_safe_truncate_contract_witness :
    (safe_truncate [208, 160] 1).2 = 1 - (safe_truncate [208, 160] 1).1.length :=
  (C7_safe_truncate_contract [208, 160] 1).2.2.2.2

/-- C8 counterexample: with `max_line_size = 16` (the claim's "5 content
bytes plus an 11-byte marker" — but the marker " TRUNCATED" is 10 bytes, not
11), the assembled content "caffee latte ji " is exactly 16 bytes, so it
fits the budget, nothing is trimmed, and the committed line is
`"caffee latte ji \n"`, not the `"caffe TRUNCATED\n"` the claim states. -/
theorem C8_limit16_counterexample :
    (put_msg (LineBuffer.with_capacity 100 16)
        [99, 97, 102, 102, 101, 101, 32] [108, 97, 116, 116, 101, 32]
        [106, 105, 32]).buffer
      = [99, 97, 102, 102, 101, 101, 32] ++ [108, 97, 116, 116, 101, 32]
        ++ [106, 105, 32] ++ [10] ∧
    (put_msg (LineBuffer.with_capacity 100 16)
        [99, 97, 102, 102, 101, 101, 32] [108, 97, 116, 116, 101, 32]
        [106, 105, 32]).buffer
      ≠ [99, 97, 102, 102, 101] ++ TRUNCATED_MARKER ++ [10] := by
  constructor
  · decide
  · decide

/-- C8 (amended): with `max_line_size = 15` — 5 content bytes plus the
10-byte marker " TRUNCATED", exactly the limit the repository's own test
uses — a truncating transaction writing meta `"caffee "`, payload
`"latte "` and fields `"ji "` commits the line `"caffe TRUNCATED\n"`. -/
theorem C8_truncation_example :
    (put_msg (LineBuffer.with_capacity 100 15)
        [99, 97, 102, 102, 101, 101, 32] [108, 97, 116, 116, 101, 32]
        [106, 105, 32]).buffer
      = [99, 97, 102, 102, 101] ++ TRUNCATED_MARKER ++ [10] := by
  decide

/-- C9: with a zero budget, every committed truncating transaction appends
exactly one newline byte to the buffer, whatever was written into the three
segments: the deficit always exceeds the total content, so all three
segments are fully erased and the marker never fits. -/
theorem C9_zero_budget (b : LineBuffer) (m p f : Str)
    (hmax : b.max_line_size = 0) (hm : head_not_cont m) :
    (put_msg b m p f).buffer = b.buffer ++ [10] := by
  rcases Nat.eq_zero_or_pos
    (m.length + (b.payload ++ p).length + (b.fields ++ f).length) with h0 | h0
  · have hmnil : m = [] := List.eq_nil_of_length_eq_zero (by omega)
    have hpnil : b.payload ++ p = [] := List.eq_nil_of_length_eq_zero (by omega)
    have hfnil : b.fields ++ f = [] := List.eq_nil_of_length_eq_zero (by omega)
    rw [put_msg_under b m p f (by omega)]
    dsimp only
    rw [hmnil, hpnil, hfnil, if_neg (by simp [TRUNCATED_MARKER, hmax])]
    simp
  · rw [put_msg_over b m p f hm (by omega)]
    dsimp only [spec_trim]
    set P := b.payload ++ p with hP
    set F := b.fields ++ f with hF
    set d0 := m.length + P.length + F.length - b.max_line_size
      + TRUNCATED_MARKER.length with hd0
    have hK : TRUNCATED_MARKER.length = 10 := rfl
    have h1s := spec_erase_step_snd P d0
    have h1l := spec_erase_step_length_le P d0
    have h2s := spec_erase_step_snd F ((spec_erase_step P d0).2)
    have h2l := spec_erase_step_length_le F ((spec_erase_step P d0).2)
    have h3s := spec_erase_step_snd m ((spec_erase_step F ((spec_erase_step P d0).2)).2)
    have h3l := spec_erase_step_length_le m ((spec_erase_step F ((spec_erase_step P d0).2)).2)
    have hpz : (spec_erase_step P d0).1 = [] :=
      spec_erase_step_empty_of_pos (by omega)
    have hfz : (spec_erase_step F ((spec_erase_step P d0).2)).1 = [] :=
      spec_erase_step_empty_of_pos (by omega)
    have hmz : (spec_erase_step m ((spec_erase_step F ((spec_erase_step P d0).2)).2)).1 = [] :=
      spec_erase_step_empty_of_pos (by omega)
    rw [hpz, hfz, hmz, if_neg (by simp [TRUNCATED_MARKER, hmax])]
    simp

theorem count_ten_zero {l : Str} (h : (10 : Nat) ∉ l) : l.count 10 = 0 :=
  List.count_eq_zero.mpr h

theorem spec_erase_step_mem {s : Str} {d : Nat} :
    ∀ x ∈ (spec_erase_step s d).1, x ∈ s := by
  rw [spec_erase_step_fst]
  intro x hx
  exact List.take_subset _ _ hx

theorem put_direct_eq (b : LineBuffer) (w : Str) :
    put_direct b w =
      if b.max_line_size < w.length then (false, b)
      else (true, { b with buffer := b.buffer ++ (w ++ [10]) }) := by
  have hlen : DirectWrite.len { b with buffer := b.buffer ++ w } b.buffer.length
      = w.length := by
    simp [DirectWrite.len]
  unfold put_direct DirectWrite.try_commit
  rw [hlen]
  split
  · simp [DirectWrite.drop, List.take_left]
  · simp [List.append_assoc]

/-- C2: every committed line — truncating or direct — is appended after the
previously committed content, ends in exactly one newline byte (provided the
written segment text itself contains none, as text fed by the formatter
does), and its length excluding that newline is at most `max_line_size`.
The code in fact never exceeds the budget, so the bound holds even in the
boundary case the claim exempts. -/
theorem C2_committed_line_invariant (b : LineBuffer) (m p f w : Str)
    (hm : head_not_cont m)
    (hpm : (10 : Nat) ∉ b.payload ++ p)
    (hfm : (10 : Nat) ∉ b.fields ++ f)
    (hmm : (10 : Nat) ∉ m)
    (hwm : (10 : Nat) ∉ w) :
    (∃ line, (put_msg b m p f).buffer = b.buffer ++ line ∧
      line.count 10 = 1 ∧ line.getLast? = some 10 ∧
      line.length - 1 ≤ b.max_line_size) ∧
    ((put_direct b w).1 = true →
      ∃ line, (put_direct b w).2.buffer = b.buffer ++ line ∧
        line.count 10 = 1 ∧ line.getLast? = some 10 ∧
        line.length - 1 ≤ b.max_line_size) := by
  have hmarker : (TRUNCATED_MARKER.count 10) = 0 := by decide
  constructor
  · rcases Nat.lt_or_ge b.max_line_size
      (m.length + (b.payload ++ p).length + (b.fields ++ f).length) with hov | hun
    · -- over-limit path
      rw [put_msg_over b m p f hm hov]
      dsimp only [spec_trim]
      set P := b.payload ++ p with hP
      set F := b.fields ++ f with hF
      set d0 := m.length + P.length + F.length - b.max_line_size
        + TRUNCATED_MARKER.length with hd0
      set t1 := (spec_erase_step P d0).1 with ht1
      set t2 := (spec_erase_step F ((spec_erase_step P d0).2)).1 with ht2
      set t3 := (spec_erase_step m
        ((spec_erase_step F ((spec_erase_step P d0).2)).2)).1 with ht3
      have hc1 : t1.count 10 = 0 :=
        count_ten_zero (fun hx => hpm (spec_erase_step_mem _ hx))
      have hc2 : t2.count 10 = 0 :=
        count_ten_zero (fun hx => hfm (spec_erase_step_mem _ hx))
      have hc3 : t3.count 10 = 0 :=
        count_ten_zero (fun hx => hmm (spec_erase_step_mem _ hx))
      have hbudget := spec_trim_budget P F m b.max_line_size (by omega)
      rw [← hd0] at hbudget
      dsimp only [spec_trim] at hbudget
      rw [← ht1, ← ht2, ← ht3] at hbudget
      refine ⟨(t3 ++ t1 ++ t2
        ++ (if t3.length + t1.length + t2.length + TRUNCATED_MARKER.length
              ≤ b.max_line_size then TRUNCATED_MARKER else [])) ++ [10],
        by simp [List.append_assoc], ?_, ?_, ?_⟩
      · rw [List.count_append, List.count_append, List.count_append,
          List.count_append, hc1, hc2, hc3]
        split
        · rw [hmarker]
          decide
        · decide
      · exact List.getLast?_concat _
      · rw [List.length_append]
        simp only [List.length_append, List.length_singleton]
        split
        · omega
        · simp only [List.length_nil]
          omega
    · -- under-limit path
      rw [put_msg_under b m p f hun]
      dsimp only
      have hc1 : (b.payload ++ p).count 10 = 0 := count_ten_zero hpm
      have hc2 : (b.fields ++ f).count 10 = 0 := count_ten_zero hfm
      have hc3 : m.count 10 = 0 := count_ten_zero hmm
      have hPl : (b.payload ++ p).length = b.payload.length + p.length :=
        List.length_append _ _
      have hFl : (b.fields ++ f).length = b.fields.length + f.length :=
        List.length_append _ _
      refine ⟨(m ++ (b.payload ++ p) ++ (b.fields ++ f)
        ++ (if m.length + (b.payload ++ p).length + (b.fields ++ f).length
              + TRUNCATED_MARKER.length ≤ b.max_line_size
            then TRUNCATED_MARKER else [])) ++ [10],
        by simp [List.append_assoc], ?_, ?_, ?_⟩
      · rw [List.count_append, List.count_append, List.count_append,
          List.count_append, hc1, hc2, hc3]
        split
        · rw [hmarker]
          decide
        · decide
      · exact List.getLast?_concat _
      · rw [List.length_append]
        simp only [List.length_append, List.length_singleton]
        split
        · omega
        · simp only [List.length_nil]
          omega
  · -- direct path
    rw [put_direct_eq]
    split
    · simp
    · rename_i hle
      intro _
      refine ⟨w ++ [10], by simp, ?_, List.getLast?_concat _, ?_⟩
      · rw [List.count_append, count_ten_zero hwm]
        decide
      · simp only [List.length_append, List.length_singleton]
        omega

theorem spec_trim_ordering (p0 f0 M : Str) (d : Nat) :
    ((spec_trim p0 f0 M d).2.1.length < f0.length → (spec_trim p0 f0 M d).1 = []) ∧
    ((spec_trim p0 f0 M d).2.2.1.length < M.length → (spec_trim p0 f0 M d).2.1 = []) := by
  dsimp only [spec_trim]
  constructor
  · intro h
    by_cases h1 : (spec_erase_step p0 d).2 = 0
    · rw [h1, spec_erase_step_zero] at h
      simp at h
    · exact spec_erase_step_empty_of_pos (by omega)
  · intro h
    by_cases h2 : (spec_erase_step f0 (spec_erase_step p0 d).2).2 = 0
    · rw [h2, spec_erase_step_zero] at h
      simp at h
    · exact spec_erase_step_empty_of_pos (by omega)

/-- C4: when the assembled content exceeds the budget, the commit removes
bytes according to the spec's removal chain — deficit
`len - max_line_size + marker_length`, stages in the priority order payload,
fields, metadata, each removing `min(deficit_remaining, segment_length)`
bytes from the end via SafeTruncate and decrementing the deficit by the
amount actually removed — and no fields byte is removed while payload bytes
remain, no metadata byte while fields bytes remain. -/
theorem C4_truncation_priority (b : LineBuffer) (pre : Nat)
    (hpre : pre ≤ b.buffer.length)
    (hb : isCharBoundary b.buffer pre = true)
    (hlen : b.max_line_size < TruncatingWrite.len b pre) :
    (let t := spec_trim b.payload b.fields (b.buffer.drop pre)
        (TruncatingWrite.len b pre - b.max_line_size + TRUNCATED_MARKER.length)
     (probe_size_limit b pre).1.payload = t.1 ∧
     (probe_size_limit b pre).1.fields = t.2.1 ∧
     (probe_size_limit b pre).1.buffer = b.buffer.take pre ++ t.2.2.1 ∧
     (t.2.1.length < b.fields.length → t.1 = []) ∧
     (t.2.2.1.length < (b.buffer.drop pre).length → t.2.1 = [])) := by
  have hAM : b.buffer.take pre ++ b.buffer.drop pre = b.buffer :=
    List.take_append_drop pre b.buffer
  have hAlen : (b.buffer.take pre).length = pre := by
    rw [List.length_take]
    omega
  have hb2 : isCharBoundary (b.buffer.take pre ++ b.buffer.drop pre)
      (b.buffer.take pre).length = true := by
    rw [hAM, hAlen]
    exact hb
  have harg : TruncatingWrite.len b pre
      = (b.buffer.drop pre).length + b.payload.length + b.fields.length := by
    unfold TruncatingWrite.len TruncatingWrite.meta_len
    rw [List.length_drop]
  have hlen2 : b.max_line_size
      < (b.buffer.drop pre).length + b.payload.length + b.fields.length := by
    omega
  have hp := probe_over (b.buffer.take pre) (b.buffer.drop pre) b.payload
    b.fields b.max_line_size hb2 hlen2
  rw [hAM, hAlen] at hp
  have hp2 : probe_size_limit b pre =
      (let t := spec_trim b.payload b.fields (b.buffer.drop pre)
        ((b.buffer.drop pre).length + b.payload.length + b.fields.length
          - b.max_line_size + TRUNCATED_MARKER.length)
       ({ buffer := b.buffer.take pre ++ t.2.2.1, payload := t.1,
          fields := t.2.1, max_line_size := b.max_line_size },
        decide (t.2.2.1.length + t.1.length + t.2.1.length
          + TRUNCATED_MARKER.length ≤ b.max_line_size))) := hp
  dsimp only
  rw [harg, hp2]
  exact ⟨rfl, rfl, rfl, (spec_trim_ordering _ _ _ _).1,
    (spec_trim_ordering _ _ _ _).2⟩

/-- C10: a successful truncating commit does not clear the payload and
fields buffers — they keep the committed segment text — so a second
truncating commit without an intervening `clear()` embeds that leftover
text in its own line; only `clear()` resets the two buffers.  Both commits
here take the no-trim path (the hypotheses keep them within budget). -/
theorem C10_segment_buffers_persist (b : LineBuffer) (m p f m2 : Str)
    (h1 : m.length + (b.payload ++ p).length + (b.fields ++ f).length
      ≤ b.max_line_size)
    (h2 : m2.length + (b.payload ++ p).length + (b.fields ++ f).length
      ≤ b.max_line_size) :
    (put_msg b m p f).payload = b.payload ++ p ∧
    (put_msg b m p f).fields = b.fields ++ f ∧
    (∃ tail, (put_msg (put_msg b m p f) m2 [] []).buffer
      = (put_msg b m p f).buffer
        ++ (m2 ++ (b.payload ++ p) ++ (b.fields ++ f) ++ tail)) ∧
    (LineBuffer.clear b).payload = [] ∧
    (LineBuffer.clear b).fields = [] := by
  have E := put_msg_under b m p f h1
  have hpay : (put_msg b m p f).payload = b.payload ++ p := by rw [E]
  have hfld : (put_msg b m p f).fields = b.fields ++ f := by rw [E]
  have hmax : (put_msg b m p f).max_line_size = b.max_line_size := by rw [E]
  refine ⟨hpay, hfld, ?_, rfl, rfl⟩
  have h2' : m2.length + ((put_msg b m p f).payload ++ []).length
      + ((put_msg b m p f).fields ++ []).length
      ≤ (put_msg b m p f).max_line_size := by
    rw [hpay, hfld, hmax, List.append_nil, List.append_nil]
    exact h2
  have E2 := put_msg_under (put_msg b m p f) m2 [] [] h2'
  refine ⟨(if m2.length + ((put_msg b m p f).payload ++ []).length
        + ((put_msg b m p f).fields ++ []).length + TRUNCATED_MARKER.length
        ≤ (put_msg b m p f).max_line_size
      then TRUNCATED_MARKER else []) ++ [10], ?_⟩
  rw [E2]
  dsimp only
  rw [hpay, hfld]
  simp [List.append_assoc]

/-- C2 witness: an over-budget truncating line and an in-budget direct
line against a 15-byte budget, with newline-free segment text. -/
theorem C2_committed_line_invariant_witness :
    (∃ line, (put_msg (LineBuffer.with_capacity 100 15) [108, 32] [97, 32]
        [107, 101, 107, 101, 107, 101, 107, 101, 107, 101, 107, 101, 107,
         101, 107, 101, 107, 101, 107, 101]).buffer
      = (LineBuffer.with_capacity 100 15).buffer ++ line ∧
      line.count 10 = 1 ∧ line.getLast? = some 10 ∧
      line.length - 1 ≤ (LineBuffer.with_capacity 100 15).max_line_size) ∧
    ((put_direct (LineBuffer.with_capacity 100 15) [72]).1 = true →
      ∃ line, (put_direct (LineBuffer.with_capacity 100 15) [72]).2.buffer
        = (LineBuffer.with_capacity 100 15).buffer ++ line ∧
        line.count 10 = 1 ∧ line.getLast? = some 10 ∧
        line.length - 1 ≤ (LineBuffer.with_capacity 100 15).max_line_size) :=
  C2_committed_line_invariant (LineBuffer.with_capacity 100 15) [108, 32]
    [97, 32]
    [107, 101, 107, 101, 107, 101, 107, 101, 107, 101, 107, 101, 107, 101,
     107, 101, 107, 101, 107, 101] [72]
    (by decide) (by decide) (by decide) (by decide) (by decide)

/-- C4 witness: buffer `"ab"` with start mark 1, payload `"c"`, empty
fields, zero budget — an over-limit transaction. -/
theorem C4_truncation_priority_witness :
    (let t := spec_trim
        (LineBuffer.payload ⟨[97, 98], [99], [], 0⟩)
        (LineBuffer.fields ⟨[97, 98], [99], [], 0⟩)
        ((LineBuffer.buffer ⟨[97, 98], [99], [], 0⟩).drop 1)
        (TruncatingWrite.len ⟨[97, 98], [99], [], 0⟩ 1
          - LineBuffer.max_line_size ⟨[97, 98], [99], [], 0⟩
          + TRUNCATED_MARKER.length)
     (probe_size_limit ⟨[97, 98], [99], [], 0⟩ 1).1.payload = t.1 ∧
     (probe_size_limit ⟨[97, 98], [99], [], 0⟩ 1).1.fields = t.2.1 ∧
     (probe_size_limit ⟨[97, 98], [99], [], 0⟩ 1).1.buffer
       = (LineBuffer.buffer ⟨[97, 98], [99], [], 0⟩).take 1 ++ t.2.2.1 ∧
     (t.2.1.length < (LineBuffer.fields ⟨[97, 98], [99], [], 0⟩).length
       → t.1 = []) ∧
     (t.2.2.1.length < ((LineBuffer.buffer ⟨[97, 98], [99], [], 0⟩).drop 1).length
       → t.2.1 = [])) :=
  C4_truncation_priority ⟨[97, 98], [99], [], 0⟩ 1
    (by decide) (by decide) (by decide)

/-- C9 witness: the repository's own zero-budget test input commits just a
newline. -/
theorem C9_zero_budget_witness :
    (LineBuffer.with_capacity 100 0).max_line_size = 0 ∧
    head_not_cont [72, 101, 108, 108, 111] ∧
    (put_msg (LineBuffer.with_capacity 100 0) [72, 101, 108, 108, 111]
        [87, 111, 114, 108, 100] [33, 33, 33, 33]).buffer
      = (LineBuffer.with_capacity 100 0).buffer ++ [10] :=
  ⟨rfl, by decide,
    C9_zero_budget (LineBuffer.with_capacity 100 0) [72, 101, 108, 108, 111]
      [87, 111, 114, 108, 100] [33, 33, 33, 33] rfl (by decide)⟩

/-- C10 witness: two small commits against a 30-byte budget. -/
theorem C10_segment_buffers_persist_witness :
    (put_msg (LineBuffer.with_capacity 100 30) [72] [87] [33]).payload
      = (LineBuffer.with_capacity 100 30).payload ++ [87] ∧
    (put_msg (LineBuffer.with_capacity 100 30) [72] [87] [33]).fields
      = (LineBuffer.with_capacity 100 30).fields ++ [33] ∧
    (∃ tail, (put_msg (put_msg (LineBuffer.with_capacity 100 30) [72] [87] [33])
        [50] [] []).buffer
      = (put_msg (LineBuffer.with_capacity 100 30) [72] [87] [33]).buffer
        ++ ([50] ++ ((LineBuffer.with_capacity 100 30).payload ++ [87])
          ++ ((LineBuffer.with_capacity 100 30).fields ++ [33]) ++ tail)) ∧
    (LineBuffer.clear (LineBuffer.with_capacity 100 30)).payload = [] ∧
    (LineBuffer.clear (LineBuffer.with_capacity 100 30)).fields = [] :=
  C10_segment_buffers_persist (LineBuffer.with_capacity 100 30) [72] [87]
    [33] [50] (by decide) (by decide)

end Elfo
